import Mathlib

/-!
Shallow embedding of the PubMed document fetcher (pubmed_fetcher.py) and
proofs about it.  Python strings are modelled as Lean `String`; substring
tests (`kw in s`), lowercasing (`s.lower()`) and zero padding (`s.zfill(2)`)
are reproduced as executable functions on the underlying character lists.
Network calls are modelled by passing the search result and a detail-fetch
oracle as explicit arguments; the file system is a map from filename to
optional contents.
-/

namespace PubMedFetcher

/-- Model of Python `needle.isPrefix-like` test: does `hay` start with `needle`? -/
def leadsWith : List Char → List Char → Bool
  | [], _ => true
  | _ :: _, [] => false
  | a :: as, b :: bs => a == b && leadsWith as bs

/-- Model of Python `needle in hay` on character lists: `needle` occurs as a
contiguous substring of `hay`. -/
def subList (needle : List Char) : List Char → Bool
  | [] => leadsWith needle []
  | c :: rest => leadsWith needle (c :: rest) || subList needle rest

/-- Model of Python `needle in hay` on strings. -/
def containsSub (needle hay : String) : Bool :=
  subList needle.data hay.data

/-- Model of Python `s.lower()` (ASCII letters; the keyword lists are ASCII). -/
def lowerStr (s : String) : String :=
  ⟨s.data.map Char.toLower⟩

/-- The fixed company-keyword set `COMPANY_KEYWORDS` of class `PubMedFetcher`
(a Python set; membership is order-independent, so a list is a faithful model). -/
def COMPANY_KEYWORDS : List String :=
  ["pfizer", "roche", "novartis", "merck", "gsk", "glaxosmithkline",
   "sanofi", "astrazeneca", "bristol-myers", "squibb", "abbvie",
   "amgen", "gilead", "biogen", "celgene", "regeneron", "vertex",
   "moderna", "biontech", "illumina", "thermo fisher", "danaher",
   "abbott", "medtronic", "johnson & johnson", "j&j", "eli lilly",
   "boehringer ingelheim", "takeda", "bayer", "pharmaceutical",
   "biotechnology", "biotech", "pharma", "inc.", "ltd.", "corp.",
   "corporation", "limited", "incorporated"]

/-- The `academic_keywords` list of `_is_company_affiliation`. -/
def academic_keywords : List String :=
  ["university", "college", "institute", "school", "hospital",
   "medical center", "research center", "laboratory", "department"]

/-- The `company_indicators` list of `_is_company_affiliation`. -/
def company_indicators : List String :=
  ["inc", "ltd", "corp", "llc", "pharmaceutical", "biotech"]

/-- `PubMedFetcher._is_company_affiliation`: lowercase the input; if any
company keyword is a substring return `true` immediately (the `for` loop with
early `return True`); otherwise return
`has_company_indicator and not has_academic_keyword`. -/
def is_company_affiliation (affiliation : String) : Bool :=
  let affiliation_lower := lowerStr affiliation
  if COMPANY_KEYWORDS.any (fun kw => containsSub kw affiliation_lower) then
    true
  else
    let has_academic_keyword :=
      academic_keywords.any (fun kw => containsSub kw affiliation_lower)
    let has_company_indicator :=
      company_indicators.any (fun kw => containsSub kw affiliation_lower)
    has_company_indicator && !has_academic_keyword

/-- C1: `_is_company_affiliation` returns true iff a company keyword occurs as
a (case-insensitive, i.e. after lowercasing) substring, or a short commercial
indicator occurs and no academic keyword occurs; in particular any string
containing a company-list keyword yields true, "Acme Pharmaceuticals LLC"
yields true and "Massachusetts Institute of Technology" yields false. -/
theorem c1_classifier_iff :
    (∀ s : String,
      is_company_affiliation s = true ↔
        ((∃ kw ∈ COMPANY_KEYWORDS, containsSub kw (lowerStr s) = true) ∨
         ((∃ kw ∈ company_indicators, containsSub kw (lowerStr s) = true) ∧
          ¬ ∃ kw ∈ academic_keywords, containsSub kw (lowerStr s) = true))) ∧
    is_company_affiliation "Acme Pharmaceuticals LLC" = true ∧
    is_company_affiliation "Massachusetts Institute of Technology" = false := by
  refine ⟨?_, by decide, by decide⟩
  intro s
  unfold is_company_affiliation
  by_cases h : COMPANY_KEYWORDS.any (fun kw => containsSub kw (lowerStr s)) = true
  · simp only [h, if_true]
    simp only [List.any_eq_true] at h
    simp [h]
  · simp only [List.any_eq_true] at h
    have hb : COMPANY_KEYWORDS.any (fun kw => containsSub kw (lowerStr s)) = false := by
      simp only [List.any_eq_false]
      intro kw hkw
      simp only [Bool.not_eq_true]
      rcases Bool.eq_false_or_eq_true (containsSub kw (lowerStr s)) with ht | hf
      · exact absurd ⟨kw, hkw, ht⟩ h
      · exact hf
    simp only [hb, Bool.false_eq_true, if_false]
    simp [List.any_eq_true, h]

/-- Closed instance of `c1_classifier_iff`. -/
theorem c1_classifier_iff_witness :
    is_company_affiliation "Acme Pharmaceuticals LLC" = true :=
  c1_classifier_iff.2.1

/-- Model of Python `s.zfill(2)`: left-pad with `'0'` to width 2; a string of
length ≥ 2 is unchanged; a single sign character gets the zero after the sign. -/
def zfill2 (s : String) : String :=
  match s.data with
  | [] => "00"
  | [c] => if c == '+' || c == '-' then ⟨[c, '0']⟩ else ⟨['0', c]⟩
  | _ => s

/-- Model of Python `sep.join(parts)`. -/
def joinSep (sep : String) : List String → String
  | [] => ""
  | [s] => s
  | s :: rest => s ++ sep ++ joinSep sep rest

/-- One date element (`PubDate` / `ArticleDate` / `DateCompleted`): the
optional `Year`, `Month`, `Day` sub-elements, each modelled by its text. -/
structure DateElem where
  year : Option String
  month : Option String
  day : Option String
deriving DecidableEq

/-- One `Author` element: optional `LastName` and `ForeName` texts, and the
texts of its `Affiliation` descendants in document order (`none` models an
affiliation element with no text). -/
structure Author where
  lastName : Option String
  foreName : Option String
  affiliations : List (Option String)
deriving DecidableEq

/-- One `PubmedArticle` element, restricted to the sub-elements the analysed
methods read: the three date locations and the optional `AuthorList`. -/
structure Article where
  pubDate : Option DateElem
  articleDate : Option DateElem
  dateCompleted : Option DateElem
  authorList : Option (List Author)
deriving DecidableEq

/-- The `date_parts` list built by `_extract_publication_date` inside one date
element: `Year` text verbatim, then `Month` and `Day` texts through `zfill(2)`,
each omitted when the sub-element is missing. -/
def dateParts (d : DateElem) : List String :=
  (match d.year with | some y => [y] | none => []) ++
  (match d.month with | some m => [zfill2 m] | none => []) ++
  (match d.day with | some dd => [zfill2 dd] | none => [])

/-- The `for date_path in date_elements` loop of `_extract_publication_date`:
the first present date element whose `date_parts` is non-empty wins (a present
element with no sub-components falls through to the next location); `"N/A"`
when no location yields parts. -/
def firstDateOf : List (Option DateElem) → String
  | [] => "N/A"
  | none :: rest => firstDateOf rest
  | some d :: rest =>
      if (dateParts d).isEmpty then firstDateOf rest else joinSep "-" (dateParts d)

/-- `PubMedFetcher._extract_publication_date`, over the three locations
`.//PubDate`, `.//ArticleDate`, `.//DateCompleted` in source order. -/
def extract_publication_date (a : Article) : String :=
  firstDateOf [a.pubDate, a.articleDate, a.dateCompleted]

/-- Does this date location yield any date parts? (`false` both for a missing
element and for a present element with no sub-components.) -/
def locYields : Option DateElem → Bool
  | none => false
  | some d => !(dateParts d).isEmpty

lemma firstDateOf_skip (o : Option DateElem) (rest : List (Option DateElem))
    (h : locYields o = false) : firstDateOf (o :: rest) = firstDateOf rest := by
  cases o with
  | none => rfl
  | some d =>
      simp only [locYields, Bool.not_eq_false'] at h
      simp [firstDateOf, h]

lemma firstDateOf_hit (d : DateElem) (rest : List (Option DateElem))
    (h : dateParts d ≠ []) :
    firstDateOf (some d :: rest) = joinSep "-" (dateParts d) := by
  have : (dateParts d).isEmpty = false := by
    cases hd : dateParts d with
    | nil => exact absurd hd h
    | cons x xs => rfl
  simp [firstDateOf, this]

/-- C2: `_extract_publication_date` tries `PubDate`, `ArticleDate`,
`DateCompleted` in that fixed order, uses the first location that yields any
of Year / zero-padded Month / zero-padded Day joined by "-", and returns
"N/A" when no location yields a component; a primary date with Year=2023 and
Month=7 gives "2023-07", and an article with no date elements gives "N/A". -/
theorem c2_date_priority :
    (∀ (a : Article) (d : DateElem), a.pubDate = some d → dateParts d ≠ [] →
        extract_publication_date a = joinSep "-" (dateParts d)) ∧
    (∀ (a : Article) (d : DateElem), locYields a.pubDate = false →
        a.articleDate = some d → dateParts d ≠ [] →
        extract_publication_date a = joinSep "-" (dateParts d)) ∧
    (∀ (a : Article) (d : DateElem), locYields a.pubDate = false →
        locYields a.articleDate = false → a.dateCompleted = some d →
        dateParts d ≠ [] →
        extract_publication_date a = joinSep "-" (dateParts d)) ∧
    (∀ a : Article, locYields a.pubDate = false → locYields a.articleDate = false →
        locYields a.dateCompleted = false → extract_publication_date a = "N/A") ∧
    extract_publication_date ⟨some ⟨some "2023", some "7", none⟩, none, none, none⟩ =
      "2023-07" ∧
    extract_publication_date ⟨none, none, none, none⟩ = "N/A" := by
  refine ⟨?_, ?_, ?_, ?_, by decide, by decide⟩
  · intro a d hp hne
    unfold extract_publication_date
    rw [hp, firstDateOf_hit d _ hne]
  · intro a d hp ha hne
    unfold extract_publication_date
    rw [firstDateOf_skip _ _ hp, ha, firstDateOf_hit d _ hne]
  · intro a d hp ha hc hne
    unfold extract_publication_date
    rw [firstDateOf_skip _ _ hp, firstDateOf_skip _ _ ha, hc, firstDateOf_hit d _ hne]
  · intro a hp ha hc
    unfold extract_publication_date
    rw [firstDateOf_skip _ _ hp, firstDateOf_skip _ _ ha, firstDateOf_skip _ _ hc]
    rfl

/-- Closed instance of `c2_date_priority`: an empty-but-present `PubDate`
falls through to `ArticleDate`. -/
theorem c2_date_priority_witness :
    extract_publication_date
        ⟨some ⟨none, none, none⟩, some ⟨some "2023", some "7", none⟩, none, none⟩ =
      joinSep "-" (dateParts ⟨some "2023", some "7", none⟩) :=
  c2_date_priority.2.1 _ ⟨some "2023", some "7", none⟩ (by decide) rfl (by decide)

/-- ASCII decimal digit test. -/
def isDig (c : Char) : Bool :=
  48 ≤ c.toNat && c.toNat ≤ 57

/-- Character-level test for the `YYYY[-MM[-DD]]` shape of the spec: four
digits, optionally followed by "-" and two digits, optionally followed by
another "-" and two digits. -/
def shapeChars : List Char → Bool
  | [a, b, c, d] =>
      isDig a && isDig b && isDig c && isDig d
  | [a, b, c, d, e, f, g] =>
      isDig a && isDig b && isDig c && isDig d && e == '-' && isDig f && isDig g
  | [a, b, c, d, e, f, g, h, i, j] =>
      isDig a && isDig b && isDig c && isDig d && e == '-' && isDig f && isDig g &&
        h == '-' && isDig i && isDig j
  | _ => false

/-- Does a string have the `YYYY[-MM[-DD]]` shape, each component zero-padded
to its width? -/
def dateShape (s : String) : Bool :=
  shapeChars s.data

/-- A 1–2 digit decimal numeral (a well-formed `Month`/`Day` text). -/
def numeral12 (s : String) : Bool :=
  (s.data.length == 1 || s.data.length == 2) && s.data.all isDig

/-- A 4-digit decimal numeral (a well-formed `Year` text). -/
def numeral4 (s : String) : Bool :=
  s.data.length == 4 && s.data.all isDig

/-- A date element whose component texts are well formed: a 4-digit `Year`
which is present whenever `Month` or `Day` is, and 1–2-digit numeric `Month`
and `Day` texts. -/
def wfDate (d : DateElem) : Bool :=
  (match d.year with
   | some y => numeral4 y
   | none => d.month == none && d.day == none) &&
  (match d.month with | some m => numeral12 m | none => true) &&
  (match d.day with | some x => numeral12 x | none => true)

/-- Well-formedness of an optional date location. -/
def wfLoc : Option DateElem → Bool
  | none => true
  | some d => wfDate d

lemma data_four {l : List Char} (h : l.length = 4) (hall : l.all isDig = true) :
    ∃ a b c d, l = [a, b, c, d] ∧ isDig a = true ∧ isDig b = true ∧
      isDig c = true ∧ isDig d = true := by
  match l with
  | [a, b, c, d] =>
      simp only [List.all_cons, List.all_nil, Bool.and_eq_true] at hall
      exact ⟨a, b, c, d, rfl, hall.1, hall.2.1, hall.2.2.1, hall.2.2.2.1⟩
  | [] => simp at h
  | [_] => simp at h
  | [_, _] => simp at h
  | [_, _, _] => simp at h
  | _ :: _ :: _ :: _ :: _ :: _ => simp at h

lemma isDig_ne_sign {c : Char} (h : isDig c = true) : (c == '+' || c == '-') = false := by
  simp only [isDig, Bool.and_eq_true, decide_eq_true_eq] at h
  rcases Bool.eq_false_or_eq_true (c == '+') with hp | hp
  · have : c = '+' := eq_of_beq hp
    subst this
    simp at h
  · rcases Bool.eq_false_or_eq_true (c == '-') with hm | hm
    · have : c = '-' := eq_of_beq hm
      subst this
      simp at h
    · simp [hp, hm]

lemma zfill2_numeral12 {m : String} (h : numeral12 m = true) :
    ∃ p q, (zfill2 m).data = [p, q] ∧ isDig p = true ∧ isDig q = true := by
  simp only [numeral12, Bool.and_eq_true, Bool.or_eq_true, beq_iff_eq] at h
  obtain ⟨hlen, hall⟩ := h
  cases hm : m.data with
  | nil =>
      rw [hm] at hlen
      simp at hlen
  | cons c t =>
      cases t with
      | nil =>
          rw [hm] at hall
          simp only [List.all_cons, List.all_nil, Bool.and_eq_true] at hall
          refine ⟨'0', c, ?_, by decide, hall.1⟩
          unfold zfill2
          rw [hm]
          simp [isDig_ne_sign hall.1]
      | cons c2 t2 =>
          cases t2 with
          | nil =>
              rw [hm] at hall
              simp only [List.all_cons, List.all_nil, Bool.and_eq_true] at hall
              refine ⟨c, c2, ?_, hall.1, hall.2.1⟩
              unfold zfill2
              rw [hm]
              exact hm
          | cons c3 t3 =>
              rw [hm] at hlen
              simp at hlen

lemma wf_dateParts_shape {d : DateElem} (hwf : wfDate d = true)
    (hne : dateParts d ≠ []) : dateShape (joinSep "-" (dateParts d)) = true := by
  obtain ⟨oy, om, od⟩ := d
  cases oy with
  | none =>
      cases om with
      | some mo => simp [wfDate] at hwf
      | none =>
          cases od with
          | some x => simp [wfDate] at hwf
          | none =>
              exfalso
              apply hne
              simp [dateParts]
  | some y =>
      cases om with
      | none =>
          cases od with
          | none =>
              simp only [wfDate, numeral4, Bool.and_eq_true, beq_iff_eq] at hwf
              obtain ⟨a, b, c, dd, hydata, ha, hb, hc, hdd⟩ :=
                data_four hwf.1.1.1 hwf.1.1.2
              have hparts :
                  dateParts ⟨some y, none, none⟩ = [y] := by simp [dateParts]
              rw [hparts]
              show shapeChars y.data = true
              rw [hydata]
              simp [shapeChars, ha, hb, hc, hdd]
          | some x =>
              simp only [wfDate, numeral4, Bool.and_eq_true, beq_iff_eq] at hwf
              obtain ⟨a, b, c, dd, hydata, ha, hb, hc, hdd⟩ :=
                data_four hwf.1.1.1 hwf.1.1.2
              obtain ⟨p, q, hx, hp, hq⟩ := zfill2_numeral12 hwf.2
              have hparts :
                  dateParts ⟨some y, none, some x⟩ = [y, zfill2 x] := by
                simp [dateParts]
              rw [hparts]
              show shapeChars (y.data ++ ['-'] ++ (zfill2 x).data) = true
              rw [hydata, hx]
              simp [shapeChars, ha, hb, hc, hdd, hp, hq]
      | some mo =>
          cases od with
          | none =>
              simp only [wfDate, numeral4, Bool.and_eq_true, beq_iff_eq] at hwf
              obtain ⟨a, b, c, dd, hydata, ha, hb, hc, hdd⟩ :=
                data_four hwf.1.1.1 hwf.1.1.2
              obtain ⟨p, q, hx, hp, hq⟩ := zfill2_numeral12 hwf.1.2
              have hparts :
                  dateParts ⟨some y, some mo, none⟩ = [y, zfill2 mo] := by
                simp [dateParts]
              rw [hparts]
              show shapeChars (y.data ++ ['-'] ++ (zfill2 mo).data) = true
              rw [hydata, hx]
              simp [shapeChars, ha, hb, hc, hdd, hp, hq]
          | some x =>
              simp only [wfDate, numeral4, Bool.and_eq_true, beq_iff_eq] at hwf
              obtain ⟨a, b, c, dd, hydata, ha, hb, hc, hdd⟩ :=
                data_four hwf.1.1.1 hwf.1.1.2
              obtain ⟨p, q, hx, hp, hq⟩ := zfill2_numeral12 hwf.1.2
              obtain ⟨r, t, hx2, hr, ht⟩ := zfill2_numeral12 hwf.2
              have hparts :
                  dateParts ⟨some y, some mo, some x⟩ = [y, zfill2 mo, zfill2 x] := by
                simp [dateParts]
              rw [hparts]
              show shapeChars (y.data ++ ['-'] ++ ((zfill2 mo).data ++ ['-'] ++ (zfill2 x).data)) = true
              rw [hydata, hx, hx2]
              simp [shapeChars, ha, hb, hc, hdd, hp, hq, hr, ht]

lemma firstDateOf_shape : ∀ ds : List (Option DateElem),
    (∀ o ∈ ds, wfLoc o = true) →
    firstDateOf ds = "N/A" ∨ dateShape (firstDateOf ds) = true
  | [], _ => Or.inl rfl
  | none :: rest, h =>
      firstDateOf_shape rest (fun o ho => h o (List.mem_cons_of_mem _ ho))
  | some d :: rest, h => by
      by_cases hne : dateParts d = []
      · have : (dateParts d).isEmpty = true := by simp [hne]
        have hred : firstDateOf (some d :: rest) = firstDateOf rest := by
          simp [firstDateOf, this]
        rw [hred]
        exact firstDateOf_shape rest (fun o ho => h o (List.mem_cons_of_mem _ ho))
      · rw [firstDateOf_hit d rest hne]
        have hwf : wfDate d = true := h (some d) (List.mem_cons_self _ _)
        exact Or.inr (wf_dateParts_shape hwf hne)

/-- C3 counterexample: a `PubDate` with only `Month=7` produces `"07"`, and a
`PubDate` with `Year=2023, Month=Jul` produces `"2023-Jul"`; neither is
`"N/A"` nor of the `YYYY[-MM[-DD]]` shape. -/
theorem c3_counterexample :
    extract_publication_date ⟨some ⟨none, some "7", none⟩, none, none, none⟩ = "07" ∧
    dateShape "07" = false ∧ ("07" : String) ≠ "N/A" ∧
    extract_publication_date ⟨some ⟨some "2023", some "Jul", none⟩, none, none, none⟩ =
      "2023-Jul" ∧
    dateShape "2023-Jul" = false := by
  refine ⟨by decide, by decide, by decide, by decide, by decide⟩

/-- C3 amended: whenever every present date element is well formed (4-digit
`Year` present whenever `Month` or `Day` is, `Month`/`Day` texts 1–2-digit
numerals), the extracted publication date is `"N/A"` or has the
`YYYY[-MM[-DD]]` shape with each component zero-padded to its width. -/
theorem c3_date_shape (a : Article)
    (hp : wfLoc a.pubDate = true) (ha : wfLoc a.articleDate = true)
    (hc : wfLoc a.dateCompleted = true) :
    extract_publication_date a = "N/A" ∨
      dateShape (extract_publication_date a) = true := by
  unfold extract_publication_date
  apply firstDateOf_shape
  intro o ho
  simp only [List.mem_cons, List.mem_singleton] at ho
  rcases ho with h | h | h | h
  · rw [h]; exact hp
  · rw [h]; exact ha
  · rw [h]; exact hc
  · simp at h

/-- Closed instance of `c3_date_shape`. -/
theorem c3_date_shape_witness :
    extract_publication_date ⟨some ⟨some "2023", some "7", none⟩, none, none, none⟩ = "N/A" ∨
      dateShape (extract_publication_date
        ⟨some ⟨some "2023", some "7", none⟩, none, none, none⟩) = true :=
  c3_date_shape ⟨some ⟨some "2023", some "7", none⟩, none, none, none⟩
    (by decide) (by decide) (by decide)

/-- The display-name construction of `_extract_author_info`: "First Last"
when both `LastName` and `ForeName` are present, the last name alone when only
`LastName` is present, and `none` (the `continue`) when `LastName` is absent —
regardless of `ForeName`. -/
def authorName (au : Author) : Option String :=
  match au.lastName, au.foreName with
  | some l, some f => some (f ++ " " ++ l)
  | some l, none => some l
  | none, _ => none

/-- Python truthiness test `if affiliation.text:` on an optional element text. -/
def truthyText : Option String → Option String
  | some t => if t == "" then none else some t
  | none => none

/-- The affiliation texts of one author that the inner loop of
`_extract_author_info` classifies as commercial: truthy texts whose lowercased
form passes `_is_company_affiliation`, in document order (original casing is
what gets collected). -/
def commercialTexts (au : Author) : List String :=
  (au.affiliations.filterMap truthyText).filter
    (fun t => is_company_affiliation (lowerStr t))

/-- Insertion into the `company_affiliations` set, modelled as an
insertion-ordered list of distinct strings. -/
def setInsert (s : List String) (x : String) : List String :=
  if s.contains x then s else s ++ [x]

/-- The author loop of `_extract_author_info` with explicit accumulators:
skip an author without a display name; otherwise add every commercial
affiliation text to the set and, if there was at least one, append the
author's name. -/
def processAuthors : List Author → List String → List String →
    List String × List String
  | [], names, comps => (names, comps)
  | au :: rest, names, comps =>
      match authorName au with
      | none => processAuthors rest names comps
      | some nm =>
          let comms := commercialTexts au
          processAuthors rest (if comms.isEmpty then names else names ++ [nm])
            (comms.foldl setInsert comps)

/-- `PubMedFetcher._extract_author_info`: `([], [])` when there is no
`AuthorList`, else the author loop over its `Author` children. -/
def extract_author_info (a : Article) : List String × List String :=
  match a.authorList with
  | none => ([], [])
  | some authors => processAuthors authors [] []

/-- C4 counterexample: an author whose `ForeName` is present but whose
`LastName` is absent is skipped and contributes neither a name nor its
(commercial) affiliation — the claim says an author is skipped only when
neither name part is present. -/
theorem c4_counterexample :
    (Author.mk none (some "John") [some "Novartis Corp"]).foreName = some "John" ∧
    is_company_affiliation "Novartis Corp" = true ∧
    extract_author_info
        ⟨none, none, none, some [⟨none, some "John", [some "Novartis Corp"]⟩]⟩ =
      ([], []) := by
  refine ⟨rfl, by decide, by decide⟩

/-- C4 amended: display names are built first+last when both are present and
last-only when only the last name is present, with no fallback to other name
fields; an author is skipped — contributing neither a name nor affiliations —
exactly when the last name is absent (even if a first name is present). -/
theorem c4_author_names (au : Author) :
    (∀ l f, au.lastName = some l → au.foreName = some f →
        authorName au = some (f ++ " " ++ l)) ∧
    (∀ l, au.lastName = some l → au.foreName = none → authorName au = some l) ∧
    (authorName au = none ↔ au.lastName = none) ∧
    (∀ (rest : List Author) (names comps : List String), au.lastName = none →
        processAuthors (au :: rest) names comps = processAuthors rest names comps) := by
  obtain ⟨ol, of, affs⟩ := au
  refine ⟨?_, ?_, ?_, ?_⟩
  · intro l f hl hf
    simp only at hl hf
    subst hl
    subst hf
    rfl
  · intro l hl hf
    simp only at hl hf
    subst hl
    subst hf
    rfl
  · cases ol with
    | none => simp [authorName]
    | some l =>
        cases of with
        | none => simp [authorName]
        | some f => simp [authorName]
  · intro rest names comps hl
    simp only at hl
    subst hl
    rfl

/-- Closed instance of `c4_author_names`. -/
theorem c4_author_names_witness :
    authorName ⟨some "Smith", some "John", []⟩ = some "John Smith" ∧
    processAuthors [⟨none, some "John", [some "Novartis Corp"]⟩] [] [] =
      processAuthors [] [] [] :=
  ⟨(c4_author_names ⟨some "Smith", some "John", []⟩).1 "Smith" "John" rfl rfl,
   (c4_author_names ⟨none, some "John", [some "Novartis Corp"]⟩).2.2.2 [] [] [] rfl⟩

/-- C5: on an article with two authors, one affiliated with "Novartis Corp"
and one with "Stanford University", extraction yields exactly the Novartis
author's name in `non_academic_authors` and exactly the string
"Novartis Corp" in `company_affiliations`. -/
theorem c5_novartis_stanford :
    extract_author_info
        ⟨none, none, none,
         some [⟨some "Smith", some "John", [some "Novartis Corp"]⟩,
               ⟨some "Lee", some "Ann", [some "Stanford University"]⟩]⟩ =
      (["John Smith"], ["Novartis Corp"]) := by
  decide

lemma setInsert_ne_nil (s : List String) (x : String) : setInsert s x ≠ [] := by
  unfold setInsert
  split
  · next hx =>
      cases s with
      | nil => simp at hx
      | cons a t => simp
  · simp

lemma foldl_setInsert_ne_nil :
    ∀ (l : List String) (s : List String), s ≠ [] → l.foldl setInsert s ≠ []
  | [], _, h => h
  | c :: cs, s, _ =>
      foldl_setInsert_ne_nil cs (setInsert s c) (setInsert_ne_nil s c)

lemma processAuthors_empty_iff :
    ∀ (authors : List Author) (names comps : List String),
      (names = [] ↔ comps = []) →
      ((processAuthors authors names comps).1 = [] ↔
       (processAuthors authors names comps).2 = [])
  | [], names, comps, h => h
  | au :: rest, names, comps, h => by
      cases hn : authorName au with
      | none =>
          have hred : processAuthors (au :: rest) names comps =
              processAuthors rest names comps := by
            simp [processAuthors, hn]
          rw [hred]
          exact processAuthors_empty_iff rest names comps h
      | some nm =>
          by_cases hc : (commercialTexts au).isEmpty
          · have hcm : commercialTexts au = [] := by
              cases hx : commercialTexts au with
              | nil => rfl
              | cons cc ct => rw [hx] at hc; simp at hc
            have hred : processAuthors (au :: rest) names comps =
                processAuthors rest names comps := by
              simp [processAuthors, hn, hcm]
            rw [hred]
            exact processAuthors_empty_iff rest names comps h
          · have hred : processAuthors (au :: rest) names comps =
                processAuthors rest (names ++ [nm])
                  ((commercialTexts au).foldl setInsert comps) := by
              simp [processAuthors, hn, hc]
            rw [hred]
            apply processAuthors_empty_iff
            constructor
            · intro hcontra
              exact absurd hcontra (by simp)
            · intro hcomps
              exfalso
              cases hcm : commercialTexts au with
              | nil => rw [hcm] at hc; simp at hc
              | cons c cs =>
                  rw [hcm] at hcomps
                  have : List.foldl setInsert (setInsert comps c) cs ≠ [] :=
                    foldl_setInsert_ne_nil cs (setInsert comps c)
                      (setInsert_ne_nil comps c)
                  exact this hcomps

/-- C10: for every extracted record, `non_academic_authors` is empty iff
`company_affiliations` is empty — a company affiliation is only collected for
a named author who is then appended, and an author is only appended when one
of their affiliations was collected — so on extracted records the filter's
inclusive OR coincides with both fields being non-empty. -/
theorem c10_empty_iff (a : Article) :
    ((extract_author_info a).1 = [] ↔ (extract_author_info a).2 = []) ∧
    (((extract_author_info a).1 ≠ [] ∨ (extract_author_info a).2 ≠ []) ↔
     ((extract_author_info a).1 ≠ [] ∧ (extract_author_info a).2 ≠ [])) := by
  have hmain : (extract_author_info a).1 = [] ↔ (extract_author_info a).2 = [] := by
    unfold extract_author_info
    cases a.authorList with
    | none => simp
    | some authors => exact processAuthors_empty_iff authors [] [] Iff.rfl
  exact ⟨hmain, by tauto⟩

/-- Closed instance of `c10_empty_iff`. -/
theorem c10_empty_iff_witness :
    (extract_author_info
        ⟨none, none, none,
         some [⟨some "Smith", some "John", [some "Novartis Corp"]⟩]⟩).1 = [] ↔
    (extract_author_info
        ⟨none, none, none,
         some [⟨some "Smith", some "John", [some "Novartis Corp"]⟩]⟩).2 = [] :=
  (c10_empty_iff _).1

/-- The `PaperInfo` dataclass. -/
structure PaperInfo where
  pubmed_id : String
  title : String
  publication_date : String
  non_academic_authors : List String
  company_affiliations : List String
  corresponding_author_email : String
deriving DecidableEq

/-- `PubMedFetcher.filter_papers_with_company_authors`: the list comprehension
keeping papers whose `non_academic_authors` or `company_affiliations` is
truthy (non-empty). -/
def filter_papers_with_company_authors (papers : List PaperInfo) : List PaperInfo :=
  papers.filter (fun paper =>
    !paper.non_academic_authors.isEmpty || !paper.company_affiliations.isEmpty)

/-- C6: the filter returns exactly the input records whose
`non_academic_authors` or `company_affiliations` is non-empty (inclusive OR),
preserving input order; a record with both lists empty is excluded and every
survivor satisfies the non-empty-OR invariant. -/
theorem c6_filter (papers : List PaperInfo) :
    filter_papers_with_company_authors papers =
      papers.filter (fun p =>
        decide (p.non_academic_authors ≠ [] ∨ p.company_affiliations ≠ [])) ∧
    List.Sublist (filter_papers_with_company_authors papers) papers ∧
    (∀ p, p ∈ filter_papers_with_company_authors papers ↔
      p ∈ papers ∧ (p.non_academic_authors ≠ [] ∨ p.company_affiliations ≠ [])) := by
  have hpt : ∀ p : PaperInfo,
      (!p.non_academic_authors.isEmpty || !p.company_affiliations.isEmpty) =
        decide (p.non_academic_authors ≠ [] ∨ p.company_affiliations ≠ []) := by
    intro p
    cases hn : p.non_academic_authors <;> cases hcf : p.company_affiliations <;> simp
  refine ⟨?_, ?_, ?_⟩
  · unfold filter_papers_with_company_authors
    exact List.filter_congr (fun p _ => hpt p)
  · exact List.filter_sublist _
  · intro p
    unfold filter_papers_with_company_authors
    rw [List.mem_filter, hpt p]
    simp

/-- Closed instance of `c6_filter`: a record with both lists empty is
excluded. -/
theorem c6_filter_witness :
    filter_papers_with_company_authors [⟨"1", "t", "N/A", [], [], "N/A"⟩] =
      List.filter (fun p =>
        decide (p.non_academic_authors ≠ [] ∨ p.company_affiliations ≠ []))
        [⟨"1", "t", "N/A", [], [], "N/A"⟩] :=
  (c6_filter [⟨"1", "t", "N/A", [], [], "N/A"⟩]).1

/-- One CSV field under the default Python `csv` dialect: quote the field when
it contains the delimiter, the quote character or a CR/LF, doubling embedded
quotes. -/
def csvField (s : String) : String :=
  if s.data.any (fun c => c == ',' || c == '"' || c == '\r' || c == '\n') then
    "\"" ++
      (⟨s.data.foldr
        (fun c acc => if c == '"' then '"' :: '"' :: acc else c :: acc) []⟩ : String)
      ++ "\""
  else s

/-- One CSV row: comma-joined quoted fields terminated by CRLF (the default
`csv.writer` line terminator). -/
def csvRow (fields : List String) : String :=
  joinSep "," (fields.map csvField) ++ "\r\n"

/-- The fixed `fieldnames` header of `save_to_csv`. -/
def csvHeader : List String :=
  ["PubmedID", "Title", "Publication Date", "Non-academic Author(s)",
   "Company Affiliation(s)", "Corresponding Author Email"]

/-- The row `save_to_csv` writes for one paper: the scalar fields verbatim and
the two list fields joined with "; ". -/
def paperRow (paper : PaperInfo) : String :=
  csvRow [paper.pubmed_id, paper.title, paper.publication_date,
          joinSep "; " paper.non_academic_authors,
          joinSep "; " paper.company_affiliations,
          paper.corresponding_author_email]

/-- The full byte content `save_to_csv` writes: header row then one row per
paper in input order. -/
def csvContent (papers : List PaperInfo) : String :=
  csvRow csvHeader ++ String.join (papers.map paperRow)

/-- `PubMedFetcher.save_to_csv`: opening `filename` in mode "w" replaces any
existing contents; the file system is modelled as a map from filename to
optional contents. -/
def save_to_csv (papers : List PaperInfo) (filename : String)
    (fs : String → Option String) : String → Option String :=
  fun f => if f = filename then some (csvContent papers) else fs f

/-- C9: the bytes written by `save_to_csv` are a deterministic function of the
record list, independent of whatever file previously existed at the
destination (mode "w" overwrites), so exporting the same list twice yields
byte-identical files. -/
theorem c9_export_deterministic (papers : List PaperInfo) (filename : String)
    (fs fs2 : String → Option String) :
    save_to_csv papers filename fs filename = some (csvContent papers) ∧
    save_to_csv papers filename fs filename =
      save_to_csv papers filename fs2 filename ∧
    save_to_csv papers filename (save_to_csv papers filename fs) filename =
      save_to_csv papers filename fs filename := by
  unfold save_to_csv
  simp

/-- The batch slicing `pubmed_ids[i:i + batch_size]` of the orchestrator loop
`for i in range(0, len(pubmed_ids), batch_size)` with `batch_size = 200`:
consecutive chunks of at most 200 identifiers. -/
def chunk200 (l : List String) : List (List String) :=
  if h : l = [] then [] else l.take 200 :: chunk200 (l.drop 200)
termination_by l.length
decreasing_by
  have hp : 0 < l.length := List.length_pos.mpr h
  simp only [List.length_drop]
  omega

/-- Observable actions of the orchestrator loop, in order: a detail-fetch call
on one batch, and the fixed `time.sleep(0.34)` pause after it. -/
inductive PipeEvent where
  | call : List String → PipeEvent
  | sleep : PipeEvent
deriving DecidableEq

/-- The event trace of the batch loop: for each batch in order, a fetch call
followed by the pause. -/
def batchEvents (batches : List (List String)) : List PipeEvent :=
  (batches.map (fun b => [PipeEvent.call b, PipeEvent.sleep])).join

/-- Result of one orchestrator run: the returned (filtered) papers, the
ordered trace of network/pause events, and the CSV contents written
(`none` when no file is written). -/
structure RunResult where
  output : List PaperInfo
  events : List PipeEvent
  written : Option String
deriving DecidableEq

/-- `PubMedFetcher.fetch_and_filter_papers`, with the search result and the
detail-fetch behaviour passed explicitly: return empty at once when the
search yields nothing; otherwise fetch the 200-sized batches in order
(sleeping after each), filter the accumulated papers, and write the CSV only
when the filtered list is non-empty. -/
def fetch_and_filter_papers (fetch : List String → List PaperInfo)
    (searchIds : List String) : RunResult :=
  if searchIds.isEmpty then ⟨[], [], none⟩
  else
    let batches := chunk200 searchIds
    let all_papers := (batches.map fetch).join
    let filtered_papers := filter_papers_with_company_authors all_papers
    ⟨filtered_papers, batchEvents batches,
     if filtered_papers.isEmpty then none else some (csvContent filtered_papers)⟩

lemma chunk200_join : ∀ l : List String, (chunk200 l).join = l
  | l => by
    by_cases h : l = []
    · rw [chunk200, dif_pos h]
      exact h.symm
    · rw [chunk200, dif_neg h]
      have ih := chunk200_join (l.drop 200)
      simp [ih]
termination_by l => l.length
decreasing_by
  show (l.drop 200).length < l.length
  have hp : 0 < l.length := List.length_pos.mpr h
  rw [List.length_drop]
  omega

lemma chunk200_le : ∀ l : List String, ∀ b ∈ chunk200 l, b.length ≤ 200
  | l => by
    by_cases h : l = []
    · rw [chunk200, dif_pos h]
      intro b hb
      simp at hb
    · rw [chunk200, dif_neg h]
      intro b hb
      rcases List.mem_cons.mp hb with hb | hb
      · subst hb
        rw [List.length_take]
        omega
      · exact chunk200_le (l.drop 200) b hb
termination_by l => l.length
decreasing_by
  show (l.drop 200).length < l.length
  have hp : 0 < l.length := List.length_pos.mpr h
  rw [List.length_drop]
  omega

/-- C7: the orchestrator partitions the search result into consecutive
batches of at most 200 identifiers whose concatenation is the original list;
on 450 identifiers it issues exactly 3 detail-fetch calls of sizes 200, 200
and 50, in order, with the pause after each call (hence between calls). -/
theorem c7_batching :
    (∀ l : List String,
      (chunk200 l).join = l ∧ ∀ b ∈ chunk200 l, b.length ≤ 200) ∧
    (∀ (ids : List String) (fetch : List String → List PaperInfo),
      ids.length = 450 →
      chunk200 ids = [ids.take 200, (ids.drop 200).take 200, ids.drop 400] ∧
      (chunk200 ids).map List.length = [200, 200, 50] ∧
      (fetch_and_filter_papers fetch ids).events =
        [PipeEvent.call (ids.take 200), PipeEvent.sleep,
         PipeEvent.call ((ids.drop 200).take 200), PipeEvent.sleep,
         PipeEvent.call (ids.drop 400), PipeEvent.sleep]) := by
  refine ⟨fun l => ⟨chunk200_join l, chunk200_le l⟩, ?_⟩
  intro ids fetch h450
  have h1 : ids ≠ [] := by
    intro he
    rw [he] at h450
    simp at h450
  have hd1 : (ids.drop 200).length = 250 := by rw [List.length_drop, h450]
  have h2 : ids.drop 200 ≠ [] := by
    intro he
    rw [he] at hd1
    simp at hd1
  have hdd : (ids.drop 200).drop 200 = ids.drop 400 := by rw [List.drop_drop]
  have hd2 : (ids.drop 400).length = 50 := by rw [List.length_drop, h450]
  have h3 : ids.drop 400 ≠ [] := by
    intro he
    rw [he] at hd2
    simp at hd2
  have hd3 : ((ids.drop 400).drop 200).length = 0 := by rw [List.length_drop, hd2]
  have h4 : (ids.drop 400).drop 200 = [] := List.eq_nil_of_length_eq_zero hd3
  have htk : (ids.drop 400).take 200 = ids.drop 400 :=
    List.take_of_length_le (by rw [hd2]; omega)
  have hch : chunk200 ids = [ids.take 200, (ids.drop 200).take 200, ids.drop 400] := by
    rw [chunk200, dif_neg h1, chunk200, dif_neg h2, hdd, chunk200, dif_neg h3,
      htk, chunk200, dif_pos h4]
  refine ⟨hch, ?_, ?_⟩
  · rw [hch]
    simp only [List.map_cons, List.map_nil, List.length_take, List.length_drop, h450, hd1]
    norm_num
  · have hne : ids.isEmpty = false := by
      cases ids with
      | nil => exact absurd rfl h1
      | cons a t => rfl
    unfold fetch_and_filter_papers
    rw [hne]
    simp only [Bool.false_eq_true, if_false]
    rw [hch]
    simp [batchEvents]

/-- Closed instance of `c7_batching` on 450 concrete identifiers. -/
theorem c7_batching_witness :
    (chunk200 ((List.range 450).map toString)).map List.length = [200, 200, 50] :=
  (c7_batching.2 ((List.range 450).map toString) (fun _ => [])
    (by simp)).2.1

/-- C8: when the search step yields no identifiers, the orchestrator returns
an empty list immediately: no detail-fetch call is issued (the event trace is
empty) and no file is written. -/
theorem c8_empty_search (fetch : List String → List PaperInfo) :
    fetch_and_filter_papers fetch [] = ⟨[], [], none⟩ := rfl

end PubMedFetcher
